import Mathlib

/-!
Verification of the consent state management and integrity engine of the
cookie-consent repository, shallowly embedded in Lean 4.

Conventions of the embedding:
* JavaScript objects are modelled as association lists `List (String × _)`
  of own enumerable properties in insertion order; property lookup takes the
  first matching key (JS objects never hold duplicate keys).
* JavaScript numbers that the code treats as integers (timestamps, versions,
  durations) are modelled as `Int`; the `z.number().int()` integrality check
  is therefore built into the type.
* `charCodeAt` returns UTF-16 code units; for the ASCII strings the code
  compares (hex digests, canonical JSON of validated states) this coincides
  with `Char.toNat`, which the model uses.
* The WebCrypto HMAC-SHA-256 primitive is not computable in the embedding;
  the signing functions are parameterised by the keyed-hash function
  `hmac : String → String → String`.  The non-cryptographic fallback hash of
  crypto.ts (`fallbackHash`) is modelled concretely and is used to
  instantiate the parameter in witnesses.  Both real digests (64 lowercase
  hex chars from HMAC-SHA-256, 8 hex chars from the fallback) are nonempty.
-/

namespace CookieConsent

/-- Scalar JSON values: the value type of `SignedConsentState` in crypto.ts
(`boolean | number | string`). -/
inductive JsVal where
  | bool (b : Bool)
  | num (n : Int)
  | str (s : String)
deriving DecidableEq, Repr

/-- A JavaScript object with scalar values, as an association list of own
properties in insertion order. -/
abbrev JsObject := List (String × JsVal)

/-- First-match property lookup, `obj[k]`. -/
def lookupKey (k : String) : List (String × α) → Option α
  | [] => none
  | (k2, v) :: rest => if k2 = k then some v else lookupKey k rest

/-- Membership test `k in obj`. -/
def hasKey (k : String) (l : List (String × α)) : Bool :=
  l.any (fun p => p.1 == k)

/-- Rest-pattern destructuring `const \x7b k, ...rest \x7d = obj`: every own
property except `k`. -/
def eraseKey (k : String) (l : List (String × α)) : List (String × α) :=
  l.filter (fun p => p.1 ≠ k)

/-- Model of `String.prototype.charCodeAt` for in-range ASCII/BMP positions. The code
only evaluates it at positions below both lengths. -/
def charCodeAt (s : String) (i : Nat) : Nat :=
  match s.data.get? i with
  | some c => c.toNat
  | none => 0

/-- crypto.ts `constantTimeCompare`: equal-length check first, then one pass
OR-accumulating the XOR of the code units at every position. -/
def constantTimeCompare (a b : String) : Bool :=
  if a.length ≠ b.length then false
  else
    let result := (List.range a.length).foldl
      (fun r i => r ||| (charCodeAt a i ^^^ charCodeAt b i)) 0
    result == 0

/-- JavaScript `ToInt32` (the effect of `x & x` / `<<` on out-of-range
integers): wrap into `[-2^31, 2^31)`. -/
def toInt32 (n : Int) : Int := (n + 2 ^ 31) % 2 ^ 32 - 2 ^ 31

/-- Hex rendering padded to at least 8 digits with leading zeros, as in
`Math.abs(hash).toString(16).padStart(8, 0)`. -/
def natToHexPadded (n : Nat) : String :=
  let s := (Nat.toDigits 16 n).asString
  (List.replicate (8 - s.length) '0').asString ++ s

/-- crypto.ts `fallbackHash`: per character
`hash = ((hash << 5) - hash) + char; hash = hash & hash` on 32-bit signed
integers, rendered as `Math.abs(hash)` in hex, left-padded to 8 digits. -/
def fallbackHash (str : String) : String :=
  let hash := str.data.foldl
    (fun hash c => toInt32 (toInt32 (hash * 32) - hash + (c.toNat : Int))) 0
  natToHexPadded hash.natAbs

/-- crypto.ts `generateSignature` on the fallback path (no WebCrypto):
`fallbackHash(data + secret)`. Used to instantiate the abstract keyed-hash
parameter in witnesses. -/
def generateSignatureFallback (data secret : String) : String :=
  fallbackHash (data ++ secret)

/-- Serialization of a scalar value as in `JSON.stringify`. Keys and the
string values the code signs (hex digests) need no escaping. -/
def jsValToJson : JsVal → String
  | .bool true => "true"
  | .bool false => "false"
  | .num n => toString n
  | .str s => "\"" ++ s ++ "\""

/-- Lexicographic comparison of strings as character lists: the order of the
JS default `Array.prototype.sort` comparator (UTF-16 code units, which agree
with codepoints for the ASCII keys involved). -/
def charListLt : List Char → List Char → Bool
  | _, [] => false
  | [], _ :: _ => true
  | c1 :: r1, c2 :: r2 =>
    if c1 < c2 then true else if c2 < c1 then false else charListLt r1 r2

/-- Comparison `a ≤ b` in the JS string sort order. -/
def strLe (a b : String) : Bool := !(charListLt b.data a.data)

/-- The sort order as a decidable relation. -/
def strLeP (a b : String) : Prop := strLe a b = true

instance : DecidableRel strLeP :=
  fun a b => inferInstanceAs (Decidable (strLe a b = true))

/-- Model of `Object.keys(obj).sort()`. -/
def sortKeys (l : List String) : List String :=
  List.insertionSort strLeP l

/-- Model of `JSON.stringify(obj, Object.keys(obj).sort())`: canonical JSON with the
object keys serialized in lexicographically sorted order. A key of the
replacer list that is absent from the object is skipped. -/
def canonicalJson (obj : JsObject) : String :=
  let ks := sortKeys (obj.map Prod.fst)
  "\x7b" ++ String.intercalate ","
      (ks.filterMap (fun k =>
        (lookupKey k obj).map (fun v => "\"" ++ k ++ "\":" ++ jsValToJson v)))
    ++ "\x7d"

/-- crypto.ts `signConsentState`: strip `__signature`, canonicalize, sign,
and return `\x7b...state, __signature: signature\x7d` (spread keeps an existing
`__signature` property at its original position and overwrites its value;
a fresh key is appended). -/
def signConsentState (hmac : String → String → String) (state : JsObject)
    (secret : String) : JsObject :=
  let stateWithoutSig := eraseKey "__signature" state
  let canonical := canonicalJson stateWithoutSig
  let signature := hmac canonical secret
  if hasKey "__signature" state then
    state.map (fun p => if p.1 = "__signature" then (p.1, JsVal.str signature) else p)
  else
    state ++ [("__signature", JsVal.str signature)]

/-- crypto.ts `verifyConsentState`: strip `__signature`; a missing or falsy
signature fails; otherwise recompute the canonical signature and compare with
`constantTimeCompare`. A non-string signature value always fails (falsy ones
fail the truthiness check, truthy ones the length comparison). Returns
`(valid, state)`. -/
def verifyConsentState (hmac : String → String → String) (signedState : JsObject)
    (secret : String) : Bool × Option JsObject :=
  let stateWithoutSig := eraseKey "__signature" signedState
  match lookupKey "__signature" signedState with
  | some (JsVal.str s) =>
    if s = "" then (false, none)
    else
      let canonical := canonicalJson stateWithoutSig
      let expected := hmac canonical secret
      if constantTimeCompare s expected then (true, some stateWithoutSig)
      else (false, none)
  | some _ => (false, none)
  | none => (false, none)

/-- A small concrete consent-like state used by the C1 witness. -/
def wState : JsObject := [("essential", JsVal.bool true), ("analytics", JsVal.bool false)]

/-! ### Validator (validation.ts)

Untrusted payloads (`unknown`) are arbitrary JSON values.  `JSON.parse`
creates every key of the input text — including `__proto__` — as an own data
property and never touches the prototype, so a stored payload is exactly its
list of own properties. -/

/-- Full JSON values for untrusted payloads. -/
inductive JsonValue where
  | bool (b : Bool)
  | num (n : Int)
  | str (s : String)
  | null
  | arr (elems : List JsonValue)
  | obj (fields : List (String × JsonValue))

def MAX_TIMESTAMP : Int := 8640000000000000

def ONE_YEAR_MS : Int := 365 * 24 * 60 * 60 * 1000

def TEN_YEARS_MS : Int := 10 * 365 * 24 * 60 * 60 * 1000

/-- The six fixed keys of `ConsentStateSchema`. -/
def fixedKeys : List String :=
  ["version", "essential", "analytics", "marketing", "timestamp", "expiresAt"]

/-- The typed output of a successful `ConsentStateSchema.parse`: the six
shape fields plus the catchall-validated extra keys. -/
structure ParsedState where
  version : Int
  analytics : Bool
  marketing : Bool
  timestamp : Int
  expiresAt : Int
  extras : List (String × Bool)
deriving DecidableEq, Repr

/-- The `.catchall(z.boolean())` pass: every key outside the six fixed ones
must hold a boolean; a single non-boolean extra value fails the parse. -/
def collectExtras : List (String × JsonValue) → Option (List (String × Bool))
  | [] => some []
  | (k, v) :: rest =>
    if k ∈ fixedKeys then collectExtras rest
    else
      match v with
      | JsonValue.bool b => (collectExtras rest).map (fun e => (k, b) :: e)
      | _ => none

/-- Model of `ConsentStateSchema.parse`: version an integer in 1..1000, essential the
literal `true`, analytics/marketing booleans, timestamp/expiresAt integers in
0..MAX_TIMESTAMP, and every other key boolean (catchall).  The exact Zod
issue messages are abbreviated; the code wraps them as
`Validation failed: ...` and no caller inspects the text. -/
def zodParse (fields : List (String × JsonValue)) : Except String ParsedState :=
  match lookupKey "version" fields with
  | some (JsonValue.num v) =>
    if 1 ≤ v ∧ v ≤ 1000 then
      match lookupKey "essential" fields with
      | some (JsonValue.bool true) =>
        match lookupKey "analytics" fields with
        | some (JsonValue.bool an) =>
          match lookupKey "marketing" fields with
          | some (JsonValue.bool mkt) =>
            match lookupKey "timestamp" fields with
            | some (JsonValue.num ts) =>
              if 0 ≤ ts ∧ ts ≤ MAX_TIMESTAMP then
                match lookupKey "expiresAt" fields with
                | some (JsonValue.num ex) =>
                  if 0 ≤ ex ∧ ex ≤ MAX_TIMESTAMP then
                    match collectExtras fields with
                    | some extras =>
                      Except.ok { version := v, analytics := an, marketing := mkt,
                                  timestamp := ts, expiresAt := ex, extras := extras }
                    | none => Except.error "Validation failed: custom value not boolean"
                  else Except.error "Validation failed: expiresAt out of range"
                | _ => Except.error "Validation failed: expiresAt"
              else Except.error "Validation failed: timestamp out of range"
            | _ => Except.error "Validation failed: timestamp"
          | _ => Except.error "Validation failed: marketing"
        | _ => Except.error "Validation failed: analytics"
      | _ => Except.error "Validation failed: essential"
    else Except.error "Validation failed: version out of range"
  | _ => Except.error "Validation failed: version"

/-- The Zod output viewed as a JS object, for the `category in parsed`
membership/typeof test of the clean-copy loop. -/
def parsedFields (p : ParsedState) : List (String × JsonValue) :=
  [("version", JsonValue.num p.version), ("essential", JsonValue.bool true),
   ("analytics", JsonValue.bool p.analytics), ("marketing", JsonValue.bool p.marketing),
   ("timestamp", JsonValue.num p.timestamp), ("expiresAt", JsonValue.num p.expiresAt)]
  ++ p.extras.map (fun e => (e.1, JsonValue.bool e.2))

/-- The clean object built by `validateConsentState` via
`Object.create(null)`: exactly the six fixed fields plus the copied custom
categories.  As a Lean structure it carries no other properties and no
prototype by construction. -/
structure CleanState where
  version : Int
  essential : Bool
  analytics : Bool
  marketing : Bool
  timestamp : Int
  expiresAt : Int
  custom : List (String × Bool)
deriving DecidableEq, Repr

/-- The copy loop: `for (category of customCategories) if (category in
parsed && typeof parsed[category] === boolean) clean[category] = ...`. -/
def copyCustom (p : ParsedState) : List String → List (String × Bool)
  | [] => []
  | c :: rest =>
    match lookupKey c (parsedFields p) with
    | some (JsonValue.bool b) => (c, b) :: copyCustom p rest
    | _ => copyCustom p rest

/-- validation.ts `validateConsentState` at time `now = Date.now()`:
object check, Zod parse, clean copy, then `expiresAt > timestamp`, the
one-year staleness bound on `timestamp`, and the ten-year future bound on
`expiresAt`.  The final checks read the clean copy, whose `timestamp` and
`expiresAt` are exactly the parsed values. -/
def validateConsentState (data : JsonValue) (customCategories : List String)
    (now : Int) : Except String CleanState :=
  match data with
  | JsonValue.obj fields =>
    match zodParse fields with
    | Except.error e => Except.error e
    | Except.ok p =>
      if p.expiresAt ≤ p.timestamp then
        Except.error "expiresAt must be after timestamp"
      else if p.timestamp < now - ONE_YEAR_MS then
        Except.error "timestamp is too old"
      else if p.expiresAt > now + TEN_YEARS_MS then
        Except.error "expiresAt is too far in the future"
      else
        Except.ok { version := p.version, essential := true,
                    analytics := p.analytics, marketing := p.marketing,
                    timestamp := p.timestamp, expiresAt := p.expiresAt,
                    custom := copyCustom p customCategories }
  | _ => Except.error "Data must be an object"

/-- A clean state viewed again as a JS object, in property-creation order
(used by the defense-in-depth re-validation during load). -/
def cleanToJson (c : CleanState) : JsonValue :=
  JsonValue.obj
    ([("version", JsonValue.num c.version), ("essential", JsonValue.bool c.essential),
      ("analytics", JsonValue.bool c.analytics), ("marketing", JsonValue.bool c.marketing),
      ("timestamp", JsonValue.num c.timestamp), ("expiresAt", JsonValue.num c.expiresAt)]
     ++ c.custom.map (fun e => (e.1, JsonValue.bool e.2)))

/-- ConsentManager.loadConsent after JSON.parse with integrity disabled
(lines 543-578): field validation, defense-in-depth re-validation, expiry
check, version check; any failure clears storage and yields no consent. -/
def loadConsentNoIntegrity (parsed : JsonValue) (customCategories : List String)
    (cfgVersion : Int) (now : Int) : Option CleanState :=
  match validateConsentState parsed customCategories now with
  | Except.error _ => none
  | Except.ok s0 =>
    match validateConsentState (cleanToJson s0) customCategories now with
    | Except.error _ => none
    | Except.ok state =>
      if now > state.expiresAt then none
      else if state.version ≠ cfgVersion then none
      else some state

/-! ### Configuration validation (validation.ts and the constructor) -/

def MAX_CUSTOM_CATEGORIES : Nat := 50

def MAX_CATEGORY_NAME_LENGTH : Nat := 100

def MAX_STORAGE_KEY_LENGTH : Nat := 256

/-- Characters of the class `[a-zA-Z0-9_-]`. -/
def isSafeChar (c : Char) : Bool :=
  (('a' ≤ c) && (c ≤ 'z')) || (('A' ≤ c) && (c ≤ 'Z')) ||
  (('0' ≤ c) && (c ≤ '9')) || (c == '_') || (c == '-')

/-- validation.ts `validateStorageKey` (the input is typed `string` at the
constructor call site, so the typeof check is not reachable here): length
1..256 first, then the `^[a-zA-Z0-9_-]+$` character test. -/
def validateStorageKey (key : String) : Except String String :=
  if key.length = 0 ∨ key.length > MAX_STORAGE_KEY_LENGTH then
    Except.error "Storage key length must be 1-256 characters"
  else if !(key.data.all isSafeChar) then
    Except.error "Storage key contains invalid characters. Only a-z, A-Z, 0-9, _, - allowed"
  else Except.ok key

/-- validation.ts `validateDuration` on number input; integrality is carried
by the `Int` embedding of JS integers. -/
def validateDuration (duration : Int) : Except String Int :=
  if duration < 1 ∨ duration > 3650 then
    Except.error "Duration must be between 1 and 3650 days"
  else Except.ok duration

/-- validation.ts `validateVersion` on number input. -/
def validateVersion (version : Int) : Except String Int :=
  if version < 1 ∨ version > 1000 then
    Except.error "Version must be between 1 and 1000"
  else Except.ok version

/-- The reserved category names. -/
def reservedNames : List String :=
  ["version", "essential", "analytics", "marketing", "timestamp", "expiresAt",
   "__proto__", "constructor", "prototype"]

/-- The per-category loop of `validateCustomCategories`, threading the
`seen` set. -/
def validateCategoriesLoop (seen : List String) :
    List String → Except String (List String)
  | [] => Except.ok []
  | c :: rest =>
    if c.length = 0 ∨ c.length > MAX_CATEGORY_NAME_LENGTH then
      Except.error "Category name length must be 1-100 characters"
    else if !(c.data.all isSafeChar) then
      Except.error "Category name contains invalid characters"
    else if c ∈ seen then
      Except.error "Duplicate category"
    else if c.toLower ∈ reservedNames then
      Except.error "Category name is reserved"
    else
      match validateCategoriesLoop (c :: seen) rest with
      | Except.ok v => Except.ok (c :: v)
      | Except.error e => Except.error e

/-- validation.ts `validateCustomCategories` on a list of strings. -/
def validateCustomCategories (categories : List String) :
    Except String (List String) :=
  if categories.length > MAX_CUSTOM_CATEGORIES then
    Except.error "Too many custom categories"
  else validateCategoriesLoop [] categories

/-- The constructor configuration input; `none` means the field was
omitted. -/
structure RawConfig where
  storageKey : Option String
  duration : Option Int
  version : Option Int
  customCategories : Option (List String)
  enableIntegrity : Option Bool

/-- The validated immutable configuration. -/
structure ManagerConfig where
  storageKey : String
  duration : Int
  version : Int
  customCategories : List String
  enableIntegrity : Bool
deriving DecidableEq, Repr

def DEFAULT_STORAGE_KEY : String := "cookie_consent"

def DEFAULT_CONSENT_VERSION : Int := 1

def DEFAULT_CONSENT_DURATION_DAYS : Int := 365

/-- The validation part of the ConsentManager constructor: apply defaults,
validate storage key, duration, version and custom categories in order, and
throw (error) on the first failure. -/
def mkConsentManager (c : RawConfig) : Except String ManagerConfig :=
  match validateStorageKey (c.storageKey.getD DEFAULT_STORAGE_KEY) with
  | Except.error e => Except.error ("Invalid storage key: " ++ e)
  | Except.ok key =>
    match validateDuration (c.duration.getD DEFAULT_CONSENT_DURATION_DAYS) with
    | Except.error e => Except.error ("Invalid duration: " ++ e)
    | Except.ok dur =>
      match validateVersion (c.version.getD DEFAULT_CONSENT_VERSION) with
      | Except.error e => Except.error ("Invalid version: " ++ e)
      | Except.ok ver =>
        match validateCustomCategories (c.customCategories.getD []) with
        | Except.error e => Except.error ("Invalid custom categories: " ++ e)
        | Except.ok cats =>
          Except.ok { storageKey := key, duration := dur, version := ver,
                      customCategories := cats,
                      enableIntegrity := c.enableIntegrity.getD true }

/-! ### Rate limiter and mutation steps (ConsentManager.ts) -/

def RATE_LIMIT_WINDOW_MS : Int := 1000

def MAX_CONSENT_CHANGES_PER_WINDOW : Nat := 5

/-- Model of `checkRateLimit` at `now = Date.now()` over the timestamp array: drop
timestamps outside the sliding window (the filtered array is written back
even on rejection), reject at the cap, otherwise record `now` and admit.
Returns (admitted, new timestamp array). -/
def checkRateLimit (now : Int) (tss : List Int) : Bool × List Int :=
  let recent := tss.filter (fun t => now - t < RATE_LIMIT_WINDOW_MS)
  if MAX_CONSENT_CHANGES_PER_WINDOW ≤ recent.length then (false, recent)
  else (true, recent ++ [now])

/-- A `ConsentPreferences` argument. -/
structure Prefs where
  analytics : Bool
  marketing : Bool
  custom : List (String × Bool)
deriving Repr

/-- The mutable manager state: in-memory consent, the stored record under
the configured key, the rate-limiter timestamps, and the log of listener
payloads (each listener invocation appends the notified state). -/
structure ManagerState where
  currentState : Option CleanState
  stored : Option JsObject
  rateTimestamps : List Int
  notifyLog : List CleanState
deriving Repr

def initialManagerState : ManagerState :=
  { currentState := none, stored := none, rateTimestamps := [], notifyLog := [] }

/-- The state built by `saveConsent`: `timestamp = now`,
`expiresAt = now + duration days`, essential always true, custom categories
defaulted to the given value or `false`. -/
def buildState (cfg : ManagerConfig) (prefs : Prefs) (now : Int) : CleanState :=
  { version := cfg.version, essential := true, analytics := prefs.analytics,
    marketing := prefs.marketing, timestamp := now,
    expiresAt := now + cfg.duration * 24 * 60 * 60 * 1000,
    custom := cfg.customCategories.map
      (fun c => (c, (lookupKey c prefs.custom).getD false)) }

/-- A clean state as the JS object handed to `signConsentState` /
`JSON.stringify`. -/
def stateToObj (s : CleanState) : JsObject :=
  [("version", JsVal.num s.version), ("essential", JsVal.bool s.essential),
   ("analytics", JsVal.bool s.analytics), ("marketing", JsVal.bool s.marketing),
   ("timestamp", JsVal.num s.timestamp), ("expiresAt", JsVal.num s.expiresAt)]
  ++ s.custom.map (fun e => (e.1, JsVal.bool e.2))

inductive SaveError where
  | rateLimit
  | storageFailure
deriving DecidableEq, Repr

/-- Model of `saveConsent`: the rate-limit check is the first action; on rejection
the error is thrown with nothing else done.  Otherwise build the new state,
sign it when integrity is enabled, and write it (`setItemOk` models whether
the adapter's setItem throws); on a write failure the error is rethrown with
the in-memory state and listeners untouched — but the admission recorded by
the check stays.  On success: commit, store, notify. -/
def saveConsentStep (hmac : String → String → String) (cfg : ManagerConfig)
    (secret : String) (now : Int) (prefs : Prefs) (setItemOk : Bool)
    (m : ManagerState) : Except SaveError CleanState × ManagerState :=
  match checkRateLimit now m.rateTimestamps with
  | (false, ts) =>
    (Except.error SaveError.rateLimit, { m with rateTimestamps := ts })
  | (true, ts) =>
    let state := buildState cfg prefs now
    let toStore := if cfg.enableIntegrity then
        signConsentState hmac (stateToObj state) secret
      else stateToObj state
    if setItemOk then
      (Except.ok state,
        { currentState := some state, stored := some toStore,
          rateTimestamps := ts, notifyLog := m.notifyLog ++ [state] })
    else
      (Except.error SaveError.storageFailure, { m with rateTimestamps := ts })

/-- Preferences of `acceptAll`: all categories true. -/
def acceptAllPrefs (cfg : ManagerConfig) : Prefs :=
  { analytics := true, marketing := true,
    custom := cfg.customCategories.map (fun c => (c, true)) }

/-- A sequence of `acceptAll` calls at the given times against a working
storage adapter. -/
def runAcceptAll (hmac : String → String → String) (cfg : ManagerConfig)
    (secret : String) (times : List Int) (m : ManagerState) :
    List (Except SaveError CleanState) × ManagerState :=
  match times with
  | [] => ([], m)
  | t :: rest =>
    let r := saveConsentStep hmac cfg secret t (acceptAllPrefs cfg) true m
    let r2 := runAcceptAll hmac cfg secret rest r.2
    (r.1 :: r2.1, r2.2)

/-- The ephemeral state `withdrawConsent` passes to listeners: all-false,
with both `timestamp` and `expiresAt` set to the current time. -/
def withdrawnState (cfg : ManagerConfig) (now : Int) : CleanState :=
  { version := cfg.version, essential := true, analytics := false,
    marketing := false, timestamp := now, expiresAt := now,
    custom := cfg.customCategories.map (fun c => (c, false)) }

/-- Model of `withdrawConsent`: clear storage and the in-memory state, then notify
listeners with the ephemeral withdrawn state.  There is no rate-limit
check anywhere in this path. -/
def withdrawConsentStep (cfg : ManagerConfig) (now : Int) (m : ManagerState) :
    ManagerState :=
  { currentState := none, stored := none,
    rateTimestamps := m.rateTimestamps,
    notifyLog := m.notifyLog ++ [withdrawnState cfg now] }

/-- A sequence of `withdrawConsent` calls at the given times. -/
def runWithdraws (cfg : ManagerConfig) (times : List Int) (m : ManagerState) :
    ManagerState :=
  match times with
  | [] => m
  | t :: rest => runWithdraws cfg rest (withdrawConsentStep cfg t m)

def countOk (rs : List (Except SaveError CleanState)) : Nat :=
  rs.countP (fun r => match r with | Except.ok _ => true | _ => false)

def countRateLimited (rs : List (Except SaveError CleanState)) : Nat :=
  rs.countP (fun r => match r with
    | Except.error SaveError.rateLimit => true
    | _ => false)

/-! ### Concrete inputs used by counterexamples and witnesses -/

/-- A payload whose timestamp lies strictly in the future of the validation
time 1700000000000. -/
def futurePayload : JsonValue :=
  JsonValue.obj
    [("version", JsonValue.num 1), ("essential", JsonValue.bool true),
     ("analytics", JsonValue.bool false), ("marketing", JsonValue.bool false),
     ("timestamp", JsonValue.num 1700000001000),
     ("expiresAt", JsonValue.num 1700000002000)]

/-- The clean state `futurePayload` validates to. -/
def futureClean : CleanState :=
  { version := 1, essential := true, analytics := false, marketing := false,
    timestamp := 1700000001000, expiresAt := 1700000002000, custom := [] }

/-- The prototype-pollution payload of the spec, as parsed from storage:
`JSON.parse` creates `__proto__` as an own data property holding the object
value. -/
def protoPayload (now : Int) : JsonValue :=
  JsonValue.obj
    [("__proto__", JsonValue.obj [("isAdmin", JsonValue.bool true)]),
     ("version", JsonValue.num 1), ("essential", JsonValue.bool true),
     ("analytics", JsonValue.bool false), ("marketing", JsonValue.bool false),
     ("timestamp", JsonValue.num now), ("expiresAt", JsonValue.num (now + 1000))]

/-- A valid payload with one allow-listed custom category. -/
def adsPayload : JsonValue :=
  JsonValue.obj
    [("version", JsonValue.num 1), ("essential", JsonValue.bool true),
     ("analytics", JsonValue.bool true), ("marketing", JsonValue.bool false),
     ("timestamp", JsonValue.num 1700000000000),
     ("expiresAt", JsonValue.num 1700000500000),
     ("ads", JsonValue.bool true)]

/-- The clean state `adsPayload` validates to under allow-list `[ads]`. -/
def adsClean : CleanState :=
  { version := 1, essential := true, analytics := true, marketing := false,
    timestamp := 1700000000000, expiresAt := 1700000500000,
    custom := [("ads", true)] }

/-- The fully-defaulted validated configuration. -/
def defaultManagerConfig : ManagerConfig :=
  { storageKey := "cookie_consent", duration := 365, version := 1,
    customCategories := [], enableIntegrity := true }

/-- A raw configuration giving only a storage key (everything else
omitted, hence defaulted by the constructor). -/
def rawWithKey (k : String) : RawConfig :=
  { storageKey := some k, duration := none, version := none,
    customCategories := none, enableIntegrity := none }

/-- A manager state whose rate window is already full (five admissions at
time 0). -/
def fullRateState : ManagerState :=
  { currentState := none, stored := none, rateTimestamps := [0, 0, 0, 0, 0],
    notifyLog := [] }

/-- A minimal validated configuration for manager-step witnesses. -/
def wConfig : ManagerConfig :=
  { storageKey := "cookie_consent", duration := 365, version := 1,
    customCategories := [], enableIntegrity := false }

/-! ### Order properties of the key sort -/

theorem charListLt_irrefl (l : List Char) : charListLt l l = false := by
  induction l with
  | nil => rfl
  | cons c r ih => simp [charListLt, ih]

theorem charListLt_trichotomy (a b : List Char) :
    charListLt a b = true ∨ charListLt b a = true ∨ a = b := by
  induction a generalizing b with
  | nil =>
    cases b with
    | nil => right; right; rfl
    | cons d s => left; rfl
  | cons c r ih =>
    cases b with
    | nil => right; left; rfl
    | cons d s =>
      rcases lt_trichotomy c d with h | h | h
      · left; simp [charListLt, h]
      · subst h
        rcases ih s with h1 | h1 | h1
        · left; simp [charListLt, h1]
        · right; left; simp [charListLt, h1]
        · right; right; rw [h1]
      · right; left; simp [charListLt, h]

theorem charListLt_trans {a b c : List Char}
    (h1 : charListLt a b = true) (h2 : charListLt b c = true) :
    charListLt a c = true := by
  induction a generalizing b c with
  | nil =>
    cases c with
    | nil => cases b <;> simp [charListLt] at h1 h2
    | cons z t => rfl
  | cons x r ih =>
    cases b with
    | nil => simp [charListLt] at h1
    | cons y s =>
      cases c with
      | nil => simp [charListLt] at h2
      | cons z t =>
        simp only [charListLt] at h1 h2 ⊢
        by_cases hxy : x < y
        · by_cases hyz : y < z
          · rw [if_pos (lt_trans hxy hyz)]
          · rw [if_neg hyz] at h2
            by_cases hzy : z < y
            · rw [if_pos hzy] at h2; exact absurd h2 (by simp)
            · have hyzeq : y = z := le_antisymm (not_lt.mp hzy) (not_lt.mp hyz)
              subst hyzeq
              rw [if_pos hxy]
        · rw [if_neg hxy] at h1
          by_cases hyx : y < x
          · rw [if_pos hyx] at h1; exact absurd h1 (by simp)
          · have hxyeq : x = y := le_antisymm (not_lt.mp hyx) (not_lt.mp hxy)
            subst hxyeq
            rw [if_neg hyx] at h1
            by_cases hxz : x < z
            · rw [if_pos hxz]
            · rw [if_neg hxz] at h2 ⊢
              by_cases hzx : z < x
              · rw [if_pos hzx] at h2; exact absurd h2 (by simp)
              · rw [if_neg hzx] at h2 ⊢
                exact ih h1 h2

theorem dataEq_toEq {a b : String} (h : a.data = b.data) : a = b :=
  String.toList_inj.mp h

instance : IsTotal String strLeP := by
  constructor
  intro a b
  simp only [strLeP, strLe, Bool.not_eq_true']
  rcases Bool.eq_false_or_eq_true (charListLt b.data a.data) with h | h
  · right
    rcases Bool.eq_false_or_eq_true (charListLt a.data b.data) with h2 | h2
    · have h3 := charListLt_trans h h2
      rw [charListLt_irrefl] at h3
      exact absurd h3 (by simp)
    · exact h2
  · left; exact h

instance : IsTrans String strLeP := by
  constructor
  intro a b c hab hbc
  simp only [strLeP, strLe, Bool.not_eq_true'] at hab hbc ⊢
  rcases Bool.eq_false_or_eq_true (charListLt c.data a.data) with h | h
  · exfalso
    rcases charListLt_trichotomy b.data c.data with h1 | h1 | h1
    · have h4 := charListLt_trans h1 h
      rw [hab] at h4
      exact absurd h4 (by simp)
    · rw [hbc] at h1
      exact absurd h1 (by simp)
    · rw [h1] at hab
      rw [hab] at h
      exact absurd h (by simp)
  · exact h

instance : IsAntisymm String strLeP := by
  constructor
  intro a b hab hba
  simp only [strLeP, strLe, Bool.not_eq_true'] at hab hba
  rcases charListLt_trichotomy a.data b.data with h | h | h
  · rw [hba] at h; exact absurd h (by simp)
  · rw [hab] at h; exact absurd h (by simp)
  · exact dataEq_toEq h

theorem sortKeys_eq_of_perm {l1 l2 : List String} (h : l1.Perm l2) :
    sortKeys l1 = sortKeys l2 :=
  List.eq_of_perm_of_sorted
    ((List.perm_insertionSort strLeP l1).trans
      (h.trans (List.perm_insertionSort strLeP l2).symm))
    (List.sorted_insertionSort strLeP l1)
    (List.sorted_insertionSort strLeP l2)

/-! ### Association list lemmas -/

theorem hasKey_cons {k : String} {p : String × α} {l : List (String × α)} :
    hasKey k (p :: l) = ((p.1 == k) || hasKey k l) := rfl

theorem eraseKey_of_hasKey_false {k : String} {l : List (String × α)}
    (h : hasKey k l = false) : eraseKey k l = l := by
  induction l with
  | nil => rfl
  | cons p r ih =>
    rw [hasKey_cons, Bool.or_eq_false_iff] at h
    obtain ⟨h1, h2⟩ := h
    rw [beq_eq_false_iff_ne] at h1
    have ih2 := ih h2
    unfold eraseKey at ih2 ⊢
    rw [List.filter_cons, if_pos (by simpa using h1), ih2]

theorem eraseKey_append_single {k : String} {l : List (String × α)} {v : α}
    (h : hasKey k l = false) : eraseKey k (l ++ [(k, v)]) = l := by
  unfold eraseKey
  rw [List.filter_append]
  rw [show List.filter (fun p => decide (p.1 ≠ k)) [(k, v)] = [] by simp]
  rw [List.append_nil]
  exact eraseKey_of_hasKey_false h

theorem lookupKey_append_single {k : String} {l : List (String × α)} {v : α}
    (h : hasKey k l = false) : lookupKey k (l ++ [(k, v)]) = some v := by
  induction l with
  | nil => simp [lookupKey]
  | cons p r ih =>
    rw [hasKey_cons, Bool.or_eq_false_iff] at h
    obtain ⟨h1, h2⟩ := h
    rw [beq_eq_false_iff_ne] at h1
    rw [List.cons_append]
    simp only [lookupKey, if_neg h1]
    exact ih h2

theorem hasKey_eq_isSome_lookupKey (k : String) (l : List (String × α)) :
    hasKey k l = (lookupKey k l).isSome := by
  induction l with
  | nil => rfl
  | cons p r ih => by_cases h : p.1 = k <;> simp [hasKey_cons, lookupKey, h, ih]

theorem lookupKey_eq_of_perm {l1 l2 : List (String × α)} (h : l1.Perm l2)
    (hnd : (l1.map Prod.fst).Nodup) (k : String) :
    lookupKey k l1 = lookupKey k l2 := by
  induction h with
  | nil => rfl
  | cons p hp ih =>
    simp only [lookupKey]
    by_cases hk : p.1 = k
    · simp [hk]
    · rw [if_neg hk, if_neg hk]
      apply ih
      simp only [List.map_cons, List.nodup_cons] at hnd
      exact hnd.2
  | swap x y l =>
    have hnd2 : (y.1 :: x.1 :: l.map Prod.fst).Nodup := by simpa using hnd
    have hxy : y.1 ≠ x.1 := by
      have h0 := (List.nodup_cons.mp hnd2).1
      simp only [List.mem_cons] at h0
      exact fun he => h0 (Or.inl he)
    by_cases hy : y.1 = k <;> by_cases hx : x.1 = k
    · exact absurd (hy.trans hx.symm) hxy
    · simp [lookupKey, hy, hx]
    · simp [lookupKey, hy, hx]
    · simp [lookupKey, hy, hx]
  | trans h1 h2 ih1 ih2 =>
    exact (ih1 hnd).trans (ih2 ((h1.map Prod.fst).nodup hnd))

/-! ### Constant-time comparison lemmas -/

theorem or_eq_zero_iff (a b : Nat) : a ||| b = 0 ↔ a = 0 ∧ b = 0 := by
  constructor
  · intro h
    constructor <;> apply Nat.zero_of_testBit_eq_false <;> intro i <;>
      have h2 := congrArg (fun n => n.testBit i) h <;>
      simp only [Nat.testBit_or, Nat.zero_testBit, Bool.or_eq_false_iff] at h2
    · exact h2.1
    · exact h2.2
  · rintro ⟨rfl, rfl⟩; rfl

theorem foldl_or_eq_zero_iff (f : Nat → Nat) (l : List Nat) (r : Nat) :
    (l.foldl (fun acc i => acc ||| f i) r = 0) ↔ (r = 0 ∧ ∀ i ∈ l, f i = 0) := by
  induction l generalizing r with
  | nil => simp
  | cons x t ih =>
    rw [List.foldl_cons, ih, or_eq_zero_iff]
    constructor
    · rintro ⟨⟨h1, h2⟩, h3⟩
      exact ⟨h1, fun i hi => by
        rcases List.mem_cons.mp hi with rfl | hi
        · exact h2
        · exact h3 i hi⟩
    · rintro ⟨h1, h2⟩
      exact ⟨⟨h1, h2 x (List.mem_cons_self x t)⟩,
        fun i hi => h2 i (List.mem_cons_of_mem x hi)⟩

theorem charCodeAt_eq_of_lt {s : String} {i : Nat} (h : i < s.length) :
    charCodeAt s i = (s.data.get ⟨i, h⟩).toNat := by
  unfold charCodeAt
  rw [List.get?_eq_getElem?, List.getElem?_eq_getElem h]
  simp [List.get_eq_getElem]

theorem constantTimeCompare_eq_true_iff (a b : String) :
    constantTimeCompare a b = true ↔ a = b := by
  constructor
  · intro h
    unfold constantTimeCompare at h
    split at h
    · exact absurd h (by simp)
    · rename_i hlen
      rw [not_not] at hlen
      rw [beq_iff_eq, foldl_or_eq_zero_iff] at h
      apply dataEq_toEq
      apply List.ext_getElem hlen
      intro n h1 h2
      have h3 := h.2 n (List.mem_range.mpr h1)
      rw [Nat.xor_eq_zero, charCodeAt_eq_of_lt h1, charCodeAt_eq_of_lt h2] at h3
      simp only [List.get_eq_getElem] at h3
      exact Char.ext (UInt32.ext h3)
  · rintro rfl
    unfold constantTimeCompare
    rw [if_neg (by simp)]
    rw [beq_iff_eq, foldl_or_eq_zero_iff]
    exact ⟨rfl, fun i _ => Nat.xor_self _⟩

theorem constantTimeCompare_refl (a : String) : constantTimeCompare a a = true :=
  (constantTimeCompare_eq_true_iff a a).mpr rfl

theorem constantTimeCompare_all_positions (a b : String) :
    constantTimeCompare a b =
      ((a.length == b.length) &&
        (List.range a.length).all (fun i => charCodeAt a i == charCodeAt b i)) := by
  unfold constantTimeCompare
  by_cases h : a.length = b.length
  · rw [if_neg (by simpa using h)]
    rw [Bool.eq_iff_iff]
    simp only [Bool.and_eq_true, beq_iff_eq, List.all_eq_true]
    rw [foldl_or_eq_zero_iff]
    constructor
    · rintro ⟨-, h2⟩
      exact ⟨h, fun i hi => by rw [Nat.xor_eq_zero.mp (h2 i hi)]⟩
    · rintro ⟨-, h2⟩
      exact ⟨rfl, fun i hi => Nat.xor_eq_zero.mpr (by simpa using h2 i hi)⟩
  · rw [if_pos (by simpa using h)]
    rw [show (a.length == b.length) = false from beq_eq_false_iff_ne.mpr h]
    rfl

/-! ### Canonical JSON under permutation -/

theorem canonicalJson_eq_of_perm {s1 s2 : JsObject}
    (hkeys : (s1.map Prod.fst).Perm (s2.map Prod.fst))
    (hlook : ∀ k, lookupKey k s1 = lookupKey k s2) :
    canonicalJson s1 = canonicalJson s2 := by
  have hfun : (fun k => Option.map (fun v => "\"" ++ k ++ "\":" ++ jsValToJson v) (lookupKey k s1))
      = (fun k => Option.map (fun v => "\"" ++ k ++ "\":" ++ jsValToJson v) (lookupKey k s2)) := by
    funext k
    rw [hlook k]
  simp only [canonicalJson]
  rw [sortKeys_eq_of_perm hkeys, hfun]

theorem signConsentState_eq_append (hmac : String → String → String)
    (state : JsObject) (secret : String)
    (hnosig : hasKey "__signature" state = false) :
    signConsentState hmac state secret
      = state ++ [("__signature", JsVal.str (hmac (canonicalJson state) secret))] := by
  simp only [signConsentState]
  rw [if_neg (by simp [hnosig]), eraseKey_of_hasKey_false hnosig]

/-! ### Claim theorems for the integrity engine -/

/-- C1: for every valid consent state `S` (no `__signature` side field) and
every secret, verifying the result of signing succeeds and returns exactly
`S` field-for-field, with the `__signature` side field stripped. The keyed
hash is abstract; the only fact used is that its digest is nonempty, which
holds for both the 64-hex-char HMAC-SHA-256 digest and the 8-hex-char
fallback digest. -/
theorem C1_sign_verify_roundtrip (hmac : String → String → String)
    (state : JsObject) (secret : String)
    (hnosig : hasKey "__signature" state = false)
    (hne : hmac (canonicalJson state) secret ≠ "") :
    verifyConsentState hmac (signConsentState hmac state secret) secret
      = (true, some state) := by
  have herase2 := eraseKey_append_single
    (v := JsVal.str (hmac (canonicalJson state) secret)) hnosig
  have hlook := lookupKey_append_single
    (v := JsVal.str (hmac (canonicalJson state) secret)) hnosig
  rw [signConsentState_eq_append hmac state secret hnosig]
  simp only [verifyConsentState, herase2, hlook]
  rw [if_neg hne, if_pos (constantTimeCompare_refl _)]

set_option maxRecDepth 8000 in
/-- Witness for C1 at a concrete state and secret, with the keyed hash
instantiated by the fallback hash of crypto.ts. -/
theorem C1_witness :
    hasKey "__signature" wState = false ∧
    generateSignatureFallback (canonicalJson wState) "s3cret" ≠ "" ∧
    verifyConsentState generateSignatureFallback
        (signConsentState generateSignatureFallback wState "s3cret") "s3cret"
      = (true, some wState) :=
  ⟨by rfl, by decide,
    C1_sign_verify_roundtrip generateSignatureFallback wState "s3cret"
      (by rfl) (by decide)⟩

/-- C2: a payload whose `__signature` field is absent, or whose stored
signature differs from the one recomputed over the payload with
`__signature` stripped, verifies to `(valid := false, state := none)`; a
failed verification never carries a partial state; and the comparison is
the equal-length check followed by a pass over every character position. -/
theorem C2_verify_failure_behavior (hmac : String → String → String)
    (payload : JsObject) (secret : String) :
    (lookupKey "__signature" payload = none →
      verifyConsentState hmac payload secret = (false, none)) ∧
    (∀ s, lookupKey "__signature" payload = some (JsVal.str s) →
      s ≠ hmac (canonicalJson (eraseKey "__signature" payload)) secret →
      verifyConsentState hmac payload secret = (false, none)) ∧
    ((verifyConsentState hmac payload secret).1 = false →
      (verifyConsentState hmac payload secret).2 = none) ∧
    (∀ a b : String, constantTimeCompare a b =
      ((a.length == b.length) &&
        (List.range a.length).all (fun i => charCodeAt a i == charCodeAt b i))) := by
  refine ⟨?_, ?_, ?_, constantTimeCompare_all_positions⟩
  · intro h
    simp [verifyConsentState, h]
  · intro s hs hne
    simp only [verifyConsentState, hs]
    by_cases hse : s = ""
    · rw [if_pos hse]
    · rw [if_neg hse,
        if_neg (fun hc => hne ((constantTimeCompare_eq_true_iff _ _).mp hc))]
  · rcases hv : lookupKey "__signature" payload with - | v
    · simp [verifyConsentState, hv]
    · cases v with
      | str s =>
        simp only [verifyConsentState, hv]
        by_cases hse : s = ""
        · rw [if_pos hse]; simp
        · rw [if_neg hse]
          by_cases hc : constantTimeCompare s
              (hmac (canonicalJson (eraseKey "__signature" payload)) secret) = true
          · rw [if_pos hc]; simp
          · rw [if_neg hc]; simp
      | bool b => simp [verifyConsentState, hv]
      | num n => simp [verifyConsentState, hv]

/-- Witness for C2 at a concrete signature-less payload. -/
theorem C2_witness :
    lookupKey "__signature" ([("a", JsVal.num 1)] : JsObject) = none ∧
    verifyConsentState generateSignatureFallback [("a", JsVal.num 1)] "s"
      = (false, none) :=
  ⟨by rfl,
    (C2_verify_failure_behavior generateSignatureFallback
      [("a", JsVal.num 1)] "s").1 (by rfl)⟩

/-- C3: two states holding exactly the same key-value pairs, with keys
inserted in different orders, receive identical `__signature` values from
`signConsentState` under the same secret, because both are canonicalized to
the same sorted-key JSON before signing. -/
theorem C3_canonical_order_independence (hmac : String → String → String)
    (s1 s2 : JsObject) (secret : String)
    (hperm : s1.Perm s2)
    (hnd : (s1.map Prod.fst).Nodup)
    (hnosig : hasKey "__signature" s1 = false) :
    lookupKey "__signature" (signConsentState hmac s1 secret)
      = lookupKey "__signature" (signConsentState hmac s2 secret) ∧
    lookupKey "__signature" (signConsentState hmac s1 secret)
      = some (JsVal.str (hmac (canonicalJson s1) secret)) := by
  have hlook := lookupKey_eq_of_perm hperm hnd
  have hnosig2 : hasKey "__signature" s2 = false := by
    rw [hasKey_eq_isSome_lookupKey, ← hlook, ← hasKey_eq_isSome_lookupKey]
    exact hnosig
  have hcanon : canonicalJson s1 = canonicalJson s2 :=
    canonicalJson_eq_of_perm (hperm.map Prod.fst) hlook
  rw [signConsentState_eq_append hmac s1 secret hnosig,
    signConsentState_eq_append hmac s2 secret hnosig2,
    lookupKey_append_single hnosig, lookupKey_append_single hnosig2, hcanon]
  exact ⟨rfl, rfl⟩

set_option maxRecDepth 8000 in
/-- Witness for C3 at two concrete permuted states. -/
theorem C3_witness :
    ([("b", JsVal.bool true), ("a", JsVal.num 2)] : JsObject).Perm
        [("a", JsVal.num 2), ("b", JsVal.bool true)] ∧
    lookupKey "__signature"
        (signConsentState generateSignatureFallback
          [("b", JsVal.bool true), ("a", JsVal.num 2)] "k")
      = lookupKey "__signature"
        (signConsentState generateSignatureFallback
          [("a", JsVal.num 2), ("b", JsVal.bool true)] "k") :=
  ⟨by decide,
    (C3_canonical_order_independence generateSignatureFallback
      [("b", JsVal.bool true), ("a", JsVal.num 2)]
      [("a", JsVal.num 2), ("b", JsVal.bool true)] "k"
      (by decide) (by decide) (by rfl)).1⟩

/-! ### Validator lemmas -/

/-- Anatomy of a successful validation: the input was an object, the Zod
parse succeeded, the clean state is the copied record, and the three final
bounds checks passed. -/
theorem validateConsentState_ok_shape {data : JsonValue} {cats : List String}
    {now : Int} {clean : CleanState}
    (h : validateConsentState data cats now = Except.ok clean) :
    ∃ fields p, data = JsonValue.obj fields ∧ zodParse fields = Except.ok p ∧
      clean = { version := p.version, essential := true,
                analytics := p.analytics, marketing := p.marketing,
                timestamp := p.timestamp, expiresAt := p.expiresAt,
                custom := copyCustom p cats } ∧
      ¬(p.expiresAt ≤ p.timestamp) ∧ ¬(p.timestamp < now - ONE_YEAR_MS) ∧
      ¬(p.expiresAt > now + TEN_YEARS_MS) := by
  cases data with
  | obj fields =>
    rw [validateConsentState] at h
    rcases hz : zodParse fields with e | p <;> rw [hz] at h
    · exact absurd h (by simp)
    · simp only at h
      split at h
      · exact absurd h (by simp)
      · split at h
        · exact absurd h (by simp)
        · split at h
          · exact absurd h (by simp)
          · rename_i h1 h2 h3
            injection h with h4
            exact ⟨fields, p, rfl, hz, h4.symm, h1, h2, h3⟩
  | bool b => exact absurd h (by simp [validateConsentState])
  | num n => exact absurd h (by simp [validateConsentState])
  | str s => exact absurd h (by simp [validateConsentState])
  | null => exact absurd h (by simp [validateConsentState])
  | arr a => exact absurd h (by simp [validateConsentState])

/-- The keys of the copied custom categories all come from the allow-list. -/
theorem copyCustom_keys_subset (p : ParsedState) (cats : List String) :
    ∀ k ∈ (copyCustom p cats).map Prod.fst, k ∈ cats := by
  induction cats with
  | nil => intro k hk; simp [copyCustom] at hk
  | cons c rest ih =>
    intro k hk
    rw [copyCustom] at hk
    rcases hl : lookupKey c (parsedFields p) with - | v
    · rw [hl] at hk
      exact List.mem_cons_of_mem c (ih k hk)
    · cases v with
      | bool b =>
        rw [hl] at hk
        simp only [List.map_cons, List.mem_cons] at hk
        rcases hk with rfl | hk
        · exact List.mem_cons_self _ _
        · exact List.mem_cons_of_mem _ (ih k hk)
      | num n => rw [hl] at hk; exact List.mem_cons_of_mem c (ih k hk)
      | str s => rw [hl] at hk; exact List.mem_cons_of_mem c (ih k hk)
      | null => rw [hl] at hk; exact List.mem_cons_of_mem c (ih k hk)
      | arr a => rw [hl] at hk; exact List.mem_cons_of_mem c (ih k hk)
      | obj o => rw [hl] at hk; exact List.mem_cons_of_mem c (ih k hk)

/-! ### Claim theorems for the validator -/

/-- C4 counterexample: at validation time 1700000000000 the payload with
`timestamp = now + 1000` — strictly in the future — is accepted, not
rejected, by `validateConsentState`. -/
theorem C4_counterexample :
    (1700000001000 : Int) > 1700000000000 ∧
    validateConsentState futurePayload [] 1700000000000
      = Except.ok futureClean :=
  ⟨by decide, by rfl⟩

/-- C4 (amended): an accepted payload satisfies `timestamp ≥ now − 1 year`,
`expiresAt > timestamp` and `expiresAt ≤ now + 10 years`; equivalently, a
timestamp older than one year is rejected — but there is no upper bound tied
to `now` on `timestamp` itself, so future timestamps are not rejected. -/
theorem C4_accepted_time_bounds (data : JsonValue) (cats : List String)
    (now : Int) (clean : CleanState)
    (h : validateConsentState data cats now = Except.ok clean) :
    now - ONE_YEAR_MS ≤ clean.timestamp ∧
    clean.timestamp < clean.expiresAt ∧
    clean.expiresAt ≤ now + TEN_YEARS_MS := by
  obtain ⟨fields, p, -, -, hc, h1, h2, h3⟩ := validateConsentState_ok_shape h
  subst hc
  refine ⟨by dsimp only; omega, by dsimp only; omega, by dsimp only; omega⟩

/-- Witness for the amended C4 at a concrete accepted payload. -/
theorem C4_witness :
    validateConsentState futurePayload [] 1700000000000
      = Except.ok futureClean ∧
    ((1700000000000 : Int) - ONE_YEAR_MS ≤ futureClean.timestamp ∧
     futureClean.timestamp < futureClean.expiresAt ∧
     futureClean.expiresAt ≤ 1700000000000 + TEN_YEARS_MS) :=
  ⟨by rfl,
    C4_accepted_time_bounds futurePayload [] 1700000000000 futureClean (by rfl)⟩

/-- C5 counterexample: loading the prototype-pollution payload does not
yield an accepted state at all.  The stored JSON's own `__proto__` key holds
an object, which fails the boolean catch-all, so validation errors out and
the load path clears storage and returns no consent. -/
theorem C5_counterexample :
    validateConsentState (protoPayload 1700000000000) [] 1700000000000
      = Except.error "Validation failed: custom value not boolean" ∧
    loadConsentNoIntegrity (protoPayload 1700000000000) [] 1 1700000000000
      = none :=
  ⟨by rfl, by rfl⟩

/-- C5 (amended): loading the prototype-pollution payload is rejected
outright (cleared, no state) rather than accepted-and-cleaned; and in
general every accepted clean state carries only allow-listed custom keys —
in particular never an `isAdmin` property — and, being a record built from
nothing (`Object.create(null)`), no inherited properties. -/
theorem C5_proto_rejected_and_allowlisted :
    (loadConsentNoIntegrity (protoPayload 1700000000000) [] 1 1700000000000
      = none) ∧
    (∀ (data : JsonValue) (cats : List String) (now : Int) (clean : CleanState),
      validateConsentState data cats now = Except.ok clean →
      ∀ k ∈ clean.custom.map Prod.fst, k ∈ cats) := by
  refine ⟨by rfl, ?_⟩
  intro data cats now clean h k hk
  obtain ⟨fields, p, -, -, hc, -, -, -⟩ := validateConsentState_ok_shape h
  subst hc
  exact copyCustom_keys_subset p cats k hk

/-- The catch-all pass over boolean-valued non-fixed keys collects them
all. -/
theorem collectExtras_all_bool (l : List (String × Bool))
    (hl : ∀ e ∈ l, e.1 ∉ fixedKeys) :
    collectExtras (l.map (fun e => (e.1, JsonValue.bool e.2))) = some l := by
  induction l with
  | nil => rfl
  | cons e rest ih =>
    rw [List.map_cons, collectExtras, if_neg (hl e (List.mem_cons_self e rest))]
    rw [ih (fun x hx => hl x (List.mem_cons_of_mem e hx))]
    rfl

/-- C10: the ephemeral state that `withdrawConsent` passes to listeners has
`expiresAt` equal to `timestamp` (both the current time), so it violates the
`expiresAt > timestamp` rule: fed back to `validateConsentState`, the
withdrawal-notification state is rejected with exactly that error, hence it
is not a valid consent state by the system's own rules. -/
theorem C10_withdrawn_state_fails_validation (cfg : ManagerConfig) (now : Int)
    (m : ManagerState)
    (hv : 1 ≤ cfg.version ∧ cfg.version ≤ 1000)
    (hn : 0 ≤ now ∧ now ≤ MAX_TIMESTAMP)
    (hcats : ∀ c ∈ cfg.customCategories, c ∉ fixedKeys) :
    (withdrawnState cfg now).expiresAt = (withdrawnState cfg now).timestamp ∧
    (withdrawConsentStep cfg now m).notifyLog
      = m.notifyLog ++ [withdrawnState cfg now] ∧
    validateConsentState (cleanToJson (withdrawnState cfg now))
        cfg.customCategories now
      = Except.error "expiresAt must be after timestamp" := by
  refine ⟨rfl, rfl, ?_⟩
  have hextras : collectExtras
      ((cfg.customCategories.map (fun c => (c, false))).map
        (fun e => (e.1, JsonValue.bool e.2)))
      = some (cfg.customCategories.map (fun c => (c, false))) := by
    apply collectExtras_all_bool
    intro e he
    simp only [List.mem_map] at he
    obtain ⟨c, hc, rfl⟩ := he
    exact hcats c hc
  simp only [cleanToJson, withdrawnState, validateConsentState, zodParse,
    lookupKey, List.cons_append, List.nil_append, collectExtras,
    String.reduceEq, reduceIte]
  rw [if_pos hv, if_pos hn, if_pos hn, hextras]
  rw [if_pos (show ("version" : String) ∈ fixedKeys by decide),
      if_pos (show ("essential" : String) ∈ fixedKeys by decide),
      if_pos (show ("analytics" : String) ∈ fixedKeys by decide),
      if_pos (show ("marketing" : String) ∈ fixedKeys by decide),
      if_pos (show ("timestamp" : String) ∈ fixedKeys by decide),
      if_pos (show ("expiresAt" : String) ∈ fixedKeys by decide)]
  dsimp only
  rw [if_pos (le_refl now)]

set_option maxRecDepth 2000 in
/-- Witness for C10 at a concrete configuration and time. -/
theorem C10_witness :
    ((1 : Int) ≤ wConfig.version ∧ wConfig.version ≤ 1000) ∧
    ((0 : Int) ≤ 1700000000000 ∧ (1700000000000 : Int) ≤ MAX_TIMESTAMP) ∧
    validateConsentState (cleanToJson (withdrawnState wConfig 1700000000000))
        wConfig.customCategories 1700000000000
      = Except.error "expiresAt must be after timestamp" :=
  ⟨by decide, by decide,
    (C10_withdrawn_state_fails_validation wConfig 1700000000000
      initialManagerState (by decide) (by decide) (by decide)).2.2⟩

/-- Witness for the amended C5 at a concrete accepted payload with one
allow-listed category. -/
theorem C5_witness :
    validateConsentState adsPayload ["ads"] 1700000000000
      = Except.ok adsClean ∧
    (∀ k ∈ adsClean.custom.map Prod.fst, k ∈ ["ads"]) :=
  ⟨by rfl,
    C5_proto_rejected_and_allowlisted.2 adsPayload ["ads"] 1700000000000
      adsClean (by rfl)⟩

/-! ### Claim theorems for configuration validation -/

/-- C8: constructing with the cookie-injection storage key
`consent; HttpOnly; admin=true;` throws a configuration error (the key
fails the safe-character test); constructing with `cookie_consent` and
otherwise default configuration succeeds; and in general any storage key
rejected by `validateStorageKey` makes the constructor throw — an invalid
key is never silently defaulted. -/
theorem C8_storage_key_validation :
    (mkConsentManager (rawWithKey "consent; HttpOnly; admin=true;")
      = Except.error ("Invalid storage key: "
          ++ "Storage key contains invalid characters. Only a-z, A-Z, 0-9, _, - allowed")) ∧
    (mkConsentManager (rawWithKey "cookie_consent")
      = Except.ok defaultManagerConfig) ∧
    (∀ (c : RawConfig) (key e0 : String), c.storageKey = some key →
      validateStorageKey key = Except.error e0 →
      mkConsentManager c = Except.error ("Invalid storage key: " ++ e0)) := by
  refine ⟨by rfl, by rfl, ?_⟩
  intro c key e0 hc hv
  rw [mkConsentManager, hc]
  simp only [Option.getD_some]
  rw [hv]

/-- Witness for C8 (the generic rejection conjunct) at a concrete raw
configuration. -/
theorem C8_witness :
    (rawWithKey "bad key").storageKey = some "bad key" ∧
    validateStorageKey "bad key"
      = Except.error "Storage key contains invalid characters. Only a-z, A-Z, 0-9, _, - allowed" ∧
    mkConsentManager (rawWithKey "bad key")
      = Except.error ("Invalid storage key: "
          ++ "Storage key contains invalid characters. Only a-z, A-Z, 0-9, _, - allowed") :=
  ⟨by rfl, by rfl,
    C8_storage_key_validation.2.2 (rawWithKey "bad key") "bad key"
      "Storage key contains invalid characters. Only a-z, A-Z, 0-9, _, - allowed"
      (by rfl) (by rfl)⟩

/-! ### Rate limiter lemmas -/

theorem checkRateLimit_false_eq {now : Int} {tss : List Int}
    (h : (checkRateLimit now tss).1 = false) :
    checkRateLimit now tss
      = (false, tss.filter (fun t => now - t < RATE_LIMIT_WINDOW_MS)) := by
  by_cases hc : MAX_CONSENT_CHANGES_PER_WINDOW
      ≤ (tss.filter (fun t => now - t < RATE_LIMIT_WINDOW_MS)).length
  · simp [checkRateLimit, hc]
  · simp [checkRateLimit, hc] at h

theorem checkRateLimit_true_eq {now : Int} {tss : List Int}
    (h : (checkRateLimit now tss).1 = true) :
    checkRateLimit now tss
      = (true, tss.filter (fun t => now - t < RATE_LIMIT_WINDOW_MS) ++ [now]) := by
  by_cases hc : MAX_CONSENT_CHANGES_PER_WINDOW
      ≤ (tss.filter (fun t => now - t < RATE_LIMIT_WINDOW_MS)).length
  · simp [checkRateLimit, hc] at h
  · simp [checkRateLimit, hc]

/-- A rejected `saveConsent` call: the error is thrown and nothing changes
except that the timestamp array has been filtered to the window (a pure
cleanup that never affects later admission decisions). -/
theorem saveConsentStep_rejected (hmac : String → String → String)
    (cfg : ManagerConfig) (secret : String) (now : Int) (prefs : Prefs)
    (ok : Bool) (m : ManagerState)
    (h : (checkRateLimit now m.rateTimestamps).1 = false) :
    saveConsentStep hmac cfg secret now prefs ok m
      = (Except.error SaveError.rateLimit,
          { m with rateTimestamps :=
              m.rateTimestamps.filter (fun t => now - t < RATE_LIMIT_WINDOW_MS) }) := by
  simp only [saveConsentStep, checkRateLimit_false_eq h]

/-- An admitted `saveConsent` call against a working adapter. -/
theorem saveConsentStep_admitted (hmac : String → String → String)
    (cfg : ManagerConfig) (secret : String) (now : Int) (prefs : Prefs)
    (m : ManagerState)
    (h : (checkRateLimit now m.rateTimestamps).1 = true) :
    saveConsentStep hmac cfg secret now prefs true m
      = (Except.ok (buildState cfg prefs now),
          { currentState := some (buildState cfg prefs now),
            stored := some (if cfg.enableIntegrity then
                signConsentState hmac (stateToObj (buildState cfg prefs now)) secret
              else stateToObj (buildState cfg prefs now)),
            rateTimestamps :=
              m.rateTimestamps.filter (fun t => now - t < RATE_LIMIT_WINDOW_MS)
                ++ [now],
            notifyLog := m.notifyLog ++ [buildState cfg prefs now] }) := by
  simp only [saveConsentStep, checkRateLimit_true_eq h, if_pos]

theorem count_split (rs : List (Except SaveError CleanState))
    (hshape : ∀ r ∈ rs,
      (∃ s, r = Except.ok s) ∨ r = Except.error SaveError.rateLimit) :
    countOk rs + countRateLimited rs = rs.length := by
  induction rs with
  | nil => rfl
  | cons r rest ih =>
    have hr := hshape r (List.mem_cons_self r rest)
    have ih2 := ih (fun x hx => hshape x (List.mem_cons_of_mem r hx))
    rcases hr with ⟨s, rfl⟩ | rfl <;>
      simp [countOk, countRateLimited, List.countP_cons] at ih2 ⊢ <;>
      omega

/-- The behaviour of a run of `acceptAll` calls whose times all fall in one
window: the results are as long as the call list, the number of successes is
clipped by the remaining window capacity, and every result is a success or a
rate-limit error. -/
theorem runAcceptAll_spec (hmac : String → String → String) (cfg : ManagerConfig)
    (secret : String) (times : List Int) :
    ∀ (m : ManagerState),
    m.rateTimestamps.length ≤ MAX_CONSENT_CHANGES_PER_WINDOW →
    (∀ t ∈ m.rateTimestamps, ∀ u ∈ times,
      0 ≤ u - t ∧ u - t < RATE_LIMIT_WINDOW_MS) →
    times.Sorted (fun a b => a ≤ b) →
    (∀ u ∈ times, ∀ v ∈ times, v - u < RATE_LIMIT_WINDOW_MS) →
    (runAcceptAll hmac cfg secret times m).1.length = times.length ∧
    countOk (runAcceptAll hmac cfg secret times m).1
      = min times.length
          (MAX_CONSENT_CHANGES_PER_WINDOW - m.rateTimestamps.length) ∧
    (∀ r ∈ (runAcceptAll hmac cfg secret times m).1,
      (∃ s, r = Except.ok s) ∨ r = Except.error SaveError.rateLimit) := by
  induction times with
  | nil =>
    intro m _ _ _ _
    simp [runAcceptAll, countOk]
  | cons t rest ih =>
    intro m hlen hacc hsort hwin
    have hfilter : m.rateTimestamps.filter
        (fun x => t - x < RATE_LIMIT_WINDOW_MS) = m.rateTimestamps := by
      apply List.filter_eq_self.mpr
      intro x hx
      have h2 := hacc x hx t (List.mem_cons_self t rest)
      simpa using h2.2
    have hsort2 := (List.sorted_cons.mp hsort).2
    have hheadle := (List.sorted_cons.mp hsort).1
    have hwin2 : ∀ u ∈ rest, ∀ v ∈ rest, v - u < RATE_LIMIT_WINDOW_MS :=
      fun u hu v hv =>
        hwin u (List.mem_cons_of_mem t hu) v (List.mem_cons_of_mem t hv)
    by_cases hfull : MAX_CONSENT_CHANGES_PER_WINDOW ≤ m.rateTimestamps.length
    · have hrej : (checkRateLimit t m.rateTimestamps).1 = false := by
        simp [checkRateLimit, hfilter, hfull]
      have hstep := saveConsentStep_rejected hmac cfg secret t
        (acceptAllPrefs cfg) true m hrej
      rw [hfilter] at hstep
      have hstep2 : saveConsentStep hmac cfg secret t (acceptAllPrefs cfg) true m
          = (Except.error SaveError.rateLimit, m) := hstep
      have ihr := ih m hlen
        (fun x hx u hu => hacc x hx u (List.mem_cons_of_mem t hu))
        hsort2 hwin2
      rw [runAcceptAll]
      simp only [hstep2]
      refine ⟨?_, ?_, ?_⟩
      · simpa using ihr.1
      · have hc2 := ihr.2.1
        simp [countOk, List.countP_cons] at hc2 ⊢
        omega
      · intro r hr
        rcases List.mem_cons.mp hr with rfl | hr2
        · exact Or.inr rfl
        · exact ihr.2.2 r hr2
    · have hadm : (checkRateLimit t m.rateTimestamps).1 = true := by
        simp [checkRateLimit, hfilter, hfull]
      have hstep := saveConsentStep_admitted hmac cfg secret t
        (acceptAllPrefs cfg) m hadm
      rw [hfilter] at hstep
      set m1 : ManagerState :=
        { currentState := some (buildState cfg (acceptAllPrefs cfg) t),
          stored := some (if cfg.enableIntegrity then
              signConsentState hmac
                (stateToObj (buildState cfg (acceptAllPrefs cfg) t)) secret
            else stateToObj (buildState cfg (acceptAllPrefs cfg) t)),
          rateTimestamps := m.rateTimestamps ++ [t],
          notifyLog := m.notifyLog ++ [buildState cfg (acceptAllPrefs cfg) t] }
        with hm1
      have hm1rate : m1.rateTimestamps = m.rateTimestamps ++ [t] := by rw [hm1]
      have ihr := ih m1 ?_ ?_ hsort2 hwin2
      · rw [runAcceptAll]
        simp only [hstep]
        refine ⟨?_, ?_, ?_⟩
        · simpa using ihr.1
        · have hcount := ihr.2.1
          rw [hm1rate] at hcount
          simp [countOk, List.countP_cons, List.length_append,
            List.length_cons] at hcount ⊢
          omega
        · intro r hr
          rcases List.mem_cons.mp hr with rfl | hr2
          · exact Or.inl ⟨buildState cfg (acceptAllPrefs cfg) t, rfl⟩
          · exact ihr.2.2 r hr2
      · rw [hm1rate]
        simp [List.length_append]
        omega
      · rw [hm1rate]
        intro x hx u hu
        rcases List.mem_append.mp hx with hx1 | hx1
        · exact hacc x hx1 u (List.mem_cons_of_mem t hu)
        · have hxt : x = t := by simpa using hx1
          subst hxt
          constructor
          · have := hheadle u hu
            omega
          · exact hwin x (List.mem_cons_self x rest) u
              (List.mem_cons_of_mem x hu)

/-! ### Claim theorems for the rate limiter and mutation paths -/

/-- C6: ten `acceptAll` calls within one rolling window (sorted times, all
pairwise less than 1000 ms apart) against a working adapter succeed exactly
5 times and throw a rate-limit error on the remaining 5; each check discards
out-of-window timestamps, admits only below the cap of 5, and records the
current time on admission; and a rejected call changes no consent state, no
stored record and notifies no listener (in particular it computes no
signature and performs no write). -/
theorem C6_rate_limit_ten_calls (hmac : String → String → String)
    (cfg : ManagerConfig) (secret : String) (times : List Int)
    (hlen : times.length = 10)
    (hsort : times.Sorted (fun a b => a ≤ b))
    (hwin : ∀ u ∈ times, ∀ v ∈ times, v - u < RATE_LIMIT_WINDOW_MS) :
    countOk (runAcceptAll hmac cfg secret times initialManagerState).1 = 5 ∧
    countRateLimited
      (runAcceptAll hmac cfg secret times initialManagerState).1 = 5 ∧
    (∀ (now : Int) (prefs : Prefs) (ok : Bool) (m : ManagerState),
      (checkRateLimit now m.rateTimestamps).1 = false →
      saveConsentStep hmac cfg secret now prefs ok m
        = (Except.error SaveError.rateLimit,
            { m with rateTimestamps :=
                m.rateTimestamps.filter (fun t => now - t < RATE_LIMIT_WINDOW_MS) })) ∧
    (∀ (now : Int) (tss : List Int),
      ((checkRateLimit now tss).1 = true ↔
        (tss.filter (fun t => now - t < RATE_LIMIT_WINDOW_MS)).length
          < MAX_CONSENT_CHANGES_PER_WINDOW) ∧
      ((checkRateLimit now tss).1 = true →
        (checkRateLimit now tss).2
          = tss.filter (fun t => now - t < RATE_LIMIT_WINDOW_MS) ++ [now])) := by
  have hspec := runAcceptAll_spec hmac cfg secret times initialManagerState
    (by simp [initialManagerState, MAX_CONSENT_CHANGES_PER_WINDOW])
    (by intro t ht; simp [initialManagerState] at ht)
    hsort hwin
  have hctOk : countOk
      (runAcceptAll hmac cfg secret times initialManagerState).1 = 5 := by
    rw [hspec.2.1, hlen]
    rfl
  have hsplit := count_split _ hspec.2.2
  refine ⟨hctOk, ?_, ?_, ?_⟩
  · rw [hspec.1, hlen, hctOk] at hsplit
    omega
  · intro now prefs ok m h
    exact saveConsentStep_rejected hmac cfg secret now prefs ok m h
  · intro now tss
    by_cases hc : MAX_CONSENT_CHANGES_PER_WINDOW
        ≤ (tss.filter (fun t => now - t < RATE_LIMIT_WINDOW_MS)).length
    · constructor
      · simp [checkRateLimit, hc]
      · intro h
        simp [checkRateLimit, hc] at h
    · constructor
      · simp [checkRateLimit, hc]
        all_goals omega
      · intro h
        simp [checkRateLimit, hc]

/-- Witness for C6: ten simultaneous `acceptAll` calls from a fresh manager
yield exactly 5 successes and 5 rate-limit errors. -/
theorem C6_witness :
    countOk (runAcceptAll generateSignatureFallback wConfig "s"
        (List.replicate 10 0) initialManagerState).1 = 5 ∧
    countRateLimited (runAcceptAll generateSignatureFallback wConfig "s"
        (List.replicate 10 0) initialManagerState).1 = 5 :=
  ⟨(C6_rate_limit_ten_calls generateSignatureFallback wConfig "s"
      (List.replicate 10 0) (by decide) (by decide) (by decide)).1,
    (C6_rate_limit_ten_calls generateSignatureFallback wConfig "s"
      (List.replicate 10 0) (by decide) (by decide) (by decide)).2.1⟩

/-- C7 counterexample: ten `withdrawConsent` calls at the same instant from
a fresh manager all complete — each clears storage and notifies listeners
(ten notifications in the log) — while the rate-limiter timestamp array
stays empty: `withdrawConsent` never performs a rate-limit check, so the
rate limiter does not bound mutating calls of this kind. -/
theorem C7_counterexample :
    (runWithdraws wConfig
        [0, 0, 0, 0, 0, 0, 0, 0, 0, 0] initialManagerState).notifyLog.length
      = 10 ∧
    (runWithdraws wConfig
        [0, 0, 0, 0, 0, 0, 0, 0, 0, 0] initialManagerState).rateTimestamps
      = [] :=
  ⟨by rfl, by rfl⟩

/-- C7 (amended): `acceptAll`, `rejectAll` and `setPreferences` all run
through `saveConsent`, whose rate-limit check precedes every side effect — a
rejected call leaves the consent state, the stored record and the listener
log untouched; `withdrawConsent`, however, performs no rate-limit check: it
always removes the stored record, clears the in-memory state and notifies
listeners, and leaves the rate-limiter timestamps unread and unchanged. -/
theorem C7_rate_check_saves_only (hmac : String → String → String)
    (cfg : ManagerConfig) (secret : String) :
    (∀ (now : Int) (prefs : Prefs) (ok : Bool) (m : ManagerState),
      (checkRateLimit now m.rateTimestamps).1 = false →
      saveConsentStep hmac cfg secret now prefs ok m
        = (Except.error SaveError.rateLimit,
            { m with rateTimestamps :=
                m.rateTimestamps.filter (fun t => now - t < RATE_LIMIT_WINDOW_MS) })) ∧
    (∀ (now : Int) (m : ManagerState),
      (withdrawConsentStep cfg now m).rateTimestamps = m.rateTimestamps ∧
      (withdrawConsentStep cfg now m).stored = none ∧
      (withdrawConsentStep cfg now m).currentState = none ∧
      (withdrawConsentStep cfg now m).notifyLog
        = m.notifyLog ++ [withdrawnState cfg now]) := by
  constructor
  · intro now prefs ok m h
    exact saveConsentStep_rejected hmac cfg secret now prefs ok m h
  · intro now m
    exact ⟨rfl, rfl, rfl, rfl⟩

/-- Witness for the amended C7: a withdraw against a full rate window still
completes with its side effects, and a save against the same window is
rejected with no side effects. -/
theorem C7_witness :
    (checkRateLimit 0 fullRateState.rateTimestamps).1 = false ∧
    (withdrawConsentStep wConfig 0 fullRateState).notifyLog
      = fullRateState.notifyLog ++ [withdrawnState wConfig 0] ∧
    saveConsentStep generateSignatureFallback wConfig "s" 0
        (acceptAllPrefs wConfig) true fullRateState
      = (Except.error SaveError.rateLimit,
          { fullRateState with rateTimestamps :=
              fullRateState.rateTimestamps.filter (fun t => (0 : Int) - t < RATE_LIMIT_WINDOW_MS) }) :=
  ⟨by decide,
    ((C7_rate_check_saves_only generateSignatureFallback wConfig "s").2
      0 fullRateState).2.2.2,
    (C7_rate_check_saves_only generateSignatureFallback wConfig "s").1
      0 (acceptAllPrefs wConfig) true fullRateState (by decide)⟩

/-- C9: when the rate check admits a mutation but the adapter's `setItem`
then throws, `saveConsent` rethrows — the in-memory consent state, the
stored record and the listener log are untouched — yet the admission
recorded by the check is not rolled back: the failed call still holds one of
the 5 slots of the current window. -/
theorem C9_failed_write_consumes_slot (hmac : String → String → String)
    (cfg : ManagerConfig) (secret : String) (now : Int) (prefs : Prefs)
    (m : ManagerState)
    (hadm : (checkRateLimit now m.rateTimestamps).1 = true) :
    saveConsentStep hmac cfg secret now prefs false m
      = (Except.error SaveError.storageFailure,
          { m with rateTimestamps :=
              m.rateTimestamps.filter (fun t => now - t < RATE_LIMIT_WINDOW_MS)
                ++ [now] }) := by
  simp only [saveConsentStep, checkRateLimit_true_eq hadm]
  rfl

/-- Witness for C9 at a fresh manager whose write fails. -/
theorem C9_witness :
    (checkRateLimit 0 initialManagerState.rateTimestamps).1 = true ∧
    saveConsentStep generateSignatureFallback wConfig "s" 0
        (acceptAllPrefs wConfig) false initialManagerState
      = (Except.error SaveError.storageFailure,
          { initialManagerState with rateTimestamps := [(0 : Int)] }) :=
  ⟨by decide,
    C9_failed_write_consumes_slot generateSignatureFallback wConfig "s" 0
      (acceptAllPrefs wConfig) initialManagerState (by decide)⟩

end CookieConsent
